import Mathlib

/-!
# spark: deny-list matching, guarded file system, body responder, startup dispatch

A shallow embedding of `spark.go` together with the parts of the Go standard
library it calls (`strings.Split`, `strings.TrimSpace`, `path/filepath.Match`,
`unicode/utf8`), for the Unix build (`filepath.Separator = '/'`, backslash is the
escape character of `filepath.Match`).

Go strings are byte sequences; they are modelled as lists of byte values.
Loops of the library that are not structural carry a counter started at the
length of the string they consume; section "The loop counters never run out"
shows that the results do not depend on it. Logging is left out: it does not
alter control flow.
-/

namespace Spark

/-! ## Strings -/

/-- A Go string: a sequence of bytes, each element a byte value (below 256). -/
abbrev GoString := List Nat

/-- UTF-8 encoding of one code point (used to write string constants). -/
def encodeRune (r : Nat) : GoString :=
  if r < 0x80 then [r]
  else if r < 0x800 then [0xC0 + r / 64, 0x80 + r % 64]
  else if r < 0x10000 then [0xE0 + r / 4096, 0x80 + r / 64 % 64, 0x80 + r % 64]
  else [0xF0 + r / 262144, 0x80 + r / 4096 % 64, 0x80 + r / 64 % 64, 0x80 + r % 64]

/-- The Go string holding the UTF-8 bytes of a text constant. -/
def str (s : String) : GoString :=
  s.toList.flatMap (fun c => encodeRune c.toNat)

/-- Value of `filepath.Separator` on Unix: the byte of `/`. -/
def Separator : Nat := 0x2F

/-- Errors the program handles. -/
inductive Error where
  | ErrBadPattern
  | ErrPermission
  | other (msg : GoString)
  deriving DecidableEq, Repr

/-! ## strings.Split, for a one-byte separator -/

/-- Go `strings.Split(s, sep)` for a separator `sep` of one byte: the pieces of
`s` between the occurrences of `sep`; always at least one piece. -/
def Split : GoString → Nat → List GoString
  | [], _ => [[]]
  | c :: rest, sep =>
    if c = sep then [] :: Split rest sep
    else
      match Split rest sep with
      | [] => [[c]]
      | piece :: pieces => (c :: piece) :: pieces

/-! ## unicode/utf8 -/

/-- Go `utf8.RuneError`. -/
def RuneError : Nat := 0xFFFD

/-- The size entry of the table `first` of package `utf8`, for a leading byte
of a multi-byte encoding (`0xC2` to `0xF4`). -/
def firstSize (s0 : Nat) : Nat :=
  if s0 < 0xE0 then 2 else if s0 < 0xF0 then 3 else 4

/-- Lower bound of the accepted second byte (table `acceptRanges`). -/
def acceptLo (s0 : Nat) : Nat :=
  if s0 = 0xE0 then 0xA0 else if s0 = 0xF0 then 0x90 else 0x80

/-- Upper bound of the accepted second byte (table `acceptRanges`). -/
def acceptHi (s0 : Nat) : Nat :=
  if s0 = 0xED then 0x9F else if s0 = 0xF4 then 0x8F else 0xBF

/-- Go `utf8.DecodeRuneInString`: the first rune of `s` and its width in bytes;
`(RuneError, 0)` for the empty string and `(RuneError, 1)` for an invalid
encoding. -/
def DecodeRuneInString (s : GoString) : Nat × Nat :=
  match s with
  | [] => (RuneError, 0)
  | s0 :: rest =>
    if s0 < 0x80 then (s0, 1)
    else if s0 < 0xC2 ∨ 0xF4 < s0 then (RuneError, 1)
    else if s.length < firstSize s0 then (RuneError, 1)
    else
      match rest with
      | [] => (RuneError, 1)
      | s1 :: rest1 =>
        if s1 < acceptLo s0 ∨ acceptHi s0 < s1 then (RuneError, 1)
        else if firstSize s0 ≤ 2 then ((s0 % 32) * 64 + s1 % 64, 2)
        else
          match rest1 with
          | [] => (RuneError, 1)
          | s2 :: rest2 =>
            if s2 < 0x80 ∨ 0xBF < s2 then (RuneError, 1)
            else if firstSize s0 ≤ 3 then ((s0 % 16) * 4096 + (s1 % 64) * 64 + s2 % 64, 3)
            else
              match rest2 with
              | [] => (RuneError, 1)
              | s3 :: _ =>
                if s3 < 0x80 ∨ 0xBF < s3 then (RuneError, 1)
                else ((s0 % 8) * 262144 + (s1 % 64) * 4096 + (s2 % 64) * 64 + s3 % 64, 4)

/-- Go `utf8.RuneStart`: the byte is not a continuation byte. -/
def RuneStart (b : Nat) : Bool := b / 64 % 4 != 2

/-- The backward scan of `utf8.DecodeLastRuneInString`: from `start`, step down
to the first index not below `lim` that holds a rune start (`steps` bounds the
number of steps, at most `UTFMax - 1`). Returns the index as an integer (it may
end at `lim - 1`). -/
def lastRuneStart (s : GoString) (lim : Int) : Nat → Int → Int
  | 0, start => start
  | steps + 1, start =>
    if start ≥ lim then
      if RuneStart (s.getD start.toNat 0) then start
      else lastRuneStart s lim steps (start - 1)
    else start

/-- Go `utf8.DecodeLastRuneInString`: the last rune of `s` and its width. -/
def DecodeLastRuneInString (s : GoString) : Nat × Nat :=
  let endIdx := s.length
  if endIdx = 0 then (RuneError, 0)
  else
    let start : Int := endIdx - 1
    let r := s.getD start.toNat 0
    if r < 0x80 then (r, 1)
    else
      let lim : Int := max 0 ((endIdx : Int) - 4)
      let start := max 0 (lastRuneStart s lim 3 (start - 1))
      let (r, size) := DecodeRuneInString (s.drop start.toNat)
      if start + size ≠ endIdx then (RuneError, 1) else (r, size)

/-! ## strings.TrimSpace -/

/-- Go `unicode.IsSpace`. -/
def IsSpace (r : Nat) : Bool :=
  if r ≤ 0xFF then
    r = 0x09 ∨ r = 0x0A ∨ r = 0x0B ∨ r = 0x0C ∨ r = 0x0D ∨ r = 0x20 ∨ r = 0x85 ∨ r = 0xA0
  else
    r = 0x1680 ∨ (0x2000 ≤ r ∧ r ≤ 0x200A) ∨ r = 0x2028 ∨ r = 0x2029 ∨ r = 0x202F ∨
      r = 0x205F ∨ r = 0x3000

/-- The table `asciiSpace` of package `strings`. -/
def asciiSpace (c : Nat) : Bool :=
  c = 0x09 ∨ c = 0x0A ∨ c = 0x0B ∨ c = 0x0C ∨ c = 0x0D ∨ c = 0x20

/-- Go `strings.TrimLeftFunc(s, f)`: drop the leading runes satisfying `f`.
The counter bounds the number of runes read by the length of the string. -/
def TrimLeftFuncLoop (f : Nat → Bool) : Nat → GoString → GoString
  | 0, _ => []
  | n + 1, s =>
    match s with
    | [] => []
    | _ :: _ =>
      let (r, size) := DecodeRuneInString s
      if f r = false then s else TrimLeftFuncLoop f n (s.drop size)

/-- Go `strings.TrimLeftFunc`. -/
def TrimLeftFunc (s : GoString) (f : Nat → Bool) : GoString :=
  TrimLeftFuncLoop f s.length s

/-- Go `strings.lastIndexFunc(s, f, false)`: the index of the last rune not
satisfying `f`, or `-1`. The loop variable `i` never exceeds the counter. -/
def lastIndexFuncLoop (s : GoString) (f : Nat → Bool) : Nat → Nat → Int
  | 0, _ => -1
  | n + 1, i =>
    if i > 0 then
      let (r, size) := DecodeLastRuneInString (s.take i)
      let i := i - size
      if f r = false then (i : Int) else lastIndexFuncLoop s f n i
    else -1

/-- Go `strings.TrimRightFunc`. -/
def TrimRightFunc (s : GoString) (f : Nat → Bool) : GoString :=
  let i := lastIndexFuncLoop s f s.length s.length
  if i ≥ 0 ∧ s.getD i.toNat 0 ≥ 0x80 then
    let (_, wid) := DecodeRuneInString (s.drop i.toNat)
    s.take (i.toNat + wid)
  else s.take (i + 1).toNat

/-- Go `strings.TrimFunc`. -/
def TrimFunc (s : GoString) (f : Nat → Bool) : GoString :=
  TrimRightFunc (TrimLeftFunc s f) f

/-- Second loop of `strings.TrimSpace`: scan back from `stop` over ASCII space;
a non-ASCII byte hands over to `TrimRightFunc`. `t` is `s[start:]`, `stop` is
relative to it. -/
def TrimSpaceStop (t : GoString) : Nat → GoString
  | 0 => t.take 0
  | stop + 1 =>
    let c := t.getD stop 0
    if c ≥ 0x80 then TrimRightFunc (t.take (stop + 1)) IsSpace
    else if asciiSpace c = false then t.take (stop + 1)
    else TrimSpaceStop t stop

/-- First loop of `strings.TrimSpace`: skip leading ASCII space; a non-ASCII
byte hands over to `TrimFunc`. -/
def TrimSpace : GoString → GoString
  | [] => []
  | c :: rest =>
    if c ≥ 0x80 then TrimFunc (c :: rest) IsSpace
    else if asciiSpace c = false then TrimSpaceStop (c :: rest) (c :: rest).length
    else TrimSpace rest

/-! ## path/filepath.Match (Unix) -/

/-- The scan loop of `scanChunk`: the index at which the chunk ends. -/
def scanLoop : GoString → Bool → Nat
  | [], _ => 0
  | [c], inrange =>
    if c = 0x2A ∧ inrange = false then 0 else 1
  | c :: c2 :: rest, inrange =>
    if c = 0x5C then 2 + scanLoop rest inrange
    else if c = 0x5B then 1 + scanLoop (c2 :: rest) true
    else if c = 0x5D then 1 + scanLoop (c2 :: rest) false
    else if c = 0x2A then
      if inrange = false then 0 else 1 + scanLoop (c2 :: rest) inrange
    else 1 + scanLoop (c2 :: rest) inrange

/-- Go `scanChunk`: the next chunk of the pattern, a star-free piece possibly
preceded by stars. Returns `(star, chunk, rest)`. -/
def scanChunk (pattern : GoString) : Bool × GoString × GoString :=
  let star := pattern.head? = some 0x2A
  let pattern := pattern.dropWhile (fun c => c = 0x2A)
  let i := scanLoop pattern false
  (star, pattern.take i, pattern.drop i)

/-- Go `getEsc`: a possibly escaped character of a character class. Returns
`(r, nchunk, err)`. -/
def getEsc (chunk : GoString) : Nat × GoString × Option Error :=
  match chunk with
  | [] => (0, [], some Error.ErrBadPattern)
  | c :: rest =>
    if c = 0x2D ∨ c = 0x5D then (0, [], some Error.ErrBadPattern)
    else if c = 0x5C ∧ rest = [] then (0, [], some Error.ErrBadPattern)
    else
      let chunk := if c = 0x5C then rest else c :: rest
      let (r, n) := DecodeRuneInString chunk
      let err := if r = RuneError ∧ n = 1 then some Error.ErrBadPattern else none
      let nchunk := chunk.drop n
      let err := if nchunk.length = 0 then some Error.ErrBadPattern else err
      (r, nchunk, err)

/-- The range loop of a character class in `matchChunk`: reads ranges up to the
closing bracket. Returns the error, or `(match, chunk)` after the class. The
case of the counter at zero is not reached when the counter exceeds the length
of the chunk (`rangeLoop_fuel`). -/
def rangeLoop (r : Nat) : Nat → GoString → Bool → Nat → Except Error (Bool × GoString)
  | 0, _, _, _ => .error Error.ErrBadPattern
  | fuel + 1, chunk, matched, nrange =>
    if chunk.head? = some 0x5D ∧ nrange > 0 then .ok (matched, chunk.tail)
    else
      match getEsc chunk with
      | (_, _, some err) => .error err
      | (lo, chunk, none) =>
        if chunk.head? = some 0x2D then
          match getEsc chunk.tail with
          | (_, _, some err) => .error err
          | (hi, chunk, none) =>
            rangeLoop r fuel chunk (matched || (decide (lo ≤ r) && decide (r ≤ hi))) (nrange + 1)
        else
          rangeLoop r fuel chunk (matched || (decide (lo ≤ r) && decide (r ≤ lo))) (nrange + 1)

/-- The loop of `matchChunk` over the chunk, with the local `failed`. Returns
`(rest, ok, err)`. The case of the counter at zero is not reached when the
counter exceeds the length of the chunk (`matchChunkLoop_fuel`). -/
def matchChunkLoop : Nat → GoString → GoString → Bool → GoString × Bool × Option Error
  | 0, _, _, _ => ([], false, none)
  | fuel + 1, chunk, s, failed =>
    match chunk with
    | [] => if failed then ([], false, none) else (s, true, none)
    | c :: chunk1 =>
      let failed := failed || (s.length == 0)
      if c = 0x5B then
        let r := if failed then 0 else (DecodeRuneInString s).1
        let s := if failed then s else s.drop (DecodeRuneInString s).2
        let negated := chunk1.head? = some 0x5E
        let chunk2 := if negated then chunk1.tail else chunk1
        match rangeLoop r fuel chunk2 false 0 with
        | .error err => ([], false, some err)
        | .ok (matched, chunk3) =>
          matchChunkLoop fuel chunk3 s (failed || (matched == decide negated))
      else if c = 0x3F then
        let failed1 := failed || (s.head? == some Separator)
        let s := if failed then s else s.drop (DecodeRuneInString s).2
        matchChunkLoop fuel chunk1 s failed1
      else if c = 0x5C then
        match chunk1 with
        | [] => ([], false, some Error.ErrBadPattern)
        | c1 :: chunk2 =>
          let failed1 := failed || (s.head? != some c1)
          let s := if failed then s else s.tail
          matchChunkLoop fuel chunk2 s failed1
      else
        let failed1 := failed || (s.head? != some c)
        let s := if failed then s else s.tail
        matchChunkLoop fuel chunk1 s failed1

/-- Go `matchChunk`: does the chunk match a prefix of `s`? Returns
`(rest, ok, err)`, `rest` being what follows the match in `s`. -/
def matchChunk (chunk s : GoString) : GoString × Bool × Option Error :=
  matchChunkLoop (chunk.length + 1) chunk s false

/-- Outcome of the star loop of `Match`. -/
inductive StarResult where
  | found (t : GoString)
  | failed (err : Error)
  | notFound
  deriving DecidableEq, Repr

/-- The loop of `Match` after a star: try the chunk after skipping `i + 1`
bytes of the name, for each `i` up to the first separator. `last` says that no
pattern is left after the chunk. -/
def starLoop (chunk : GoString) (last : Bool) : GoString → StarResult
  | [] => StarResult.notFound
  | c :: rest =>
    if c = Separator then StarResult.notFound
    else
      match matchChunk chunk rest with
      | (t, true, _) =>
        if last ∧ t.length > 0 then starLoop chunk last rest else StarResult.found t
      | (_, false, some err) => StarResult.failed err
      | (_, false, none) => starLoop chunk last rest

/-- The `Pattern:` loop of `Match`. Returns `(matched, err)`. The counter is
at least the length of the pattern, so at zero the pattern is empty and the
loop is left (`MatchLoop_fuel`). -/
def MatchLoop : Nat → GoString → GoString → Bool × Option Error
  | 0, _, name => (name.length == 0, none)
  | fuel + 1, pattern, name =>
    if pattern.length > 0 then
      match scanChunk pattern with
      | (star, chunk, pattern) =>
        if star ∧ chunk = [] then (!(name.contains Separator), none)
        else
          match matchChunk chunk name with
          | (t, ok, err) =>
            if ok ∧ (t.length = 0 ∨ pattern.length > 0) then MatchLoop fuel pattern t
            else if err ≠ none then (false, err)
            else if star then
              match starLoop chunk (pattern.length == 0) name with
              | StarResult.found t => MatchLoop fuel pattern t
              | StarResult.failed err => (false, some err)
              | StarResult.notFound => (false, none)
            else (false, none)
    else (name.length == 0, none)

/-- Go `filepath.Match(pattern, name)`. Returns `(matched, err)`. -/
def Match (pattern name : GoString) : Bool × Option Error :=
  MatchLoop pattern.length pattern name

/-! ## spark.go: isDenied -/

/-- The inner loop of `isDenied`: some deny element matches the path element. -/
def deniedByAny (pathElement : GoString) : List GoString → Bool
  | [] => false
  | denyElement :: rest =>
    if (Match (TrimSpace denyElement) pathElement).1 then true
    else deniedByAny pathElement rest

/-- The outer loop of `isDenied`. -/
def deniedLoop (denyList : GoString) : List GoString → Bool
  | [] => false
  | pathElement :: rest =>
    if deniedByAny pathElement (Split denyList 0x2C) then true
    else deniedLoop denyList rest

/-- `isDenied(path, denyList)` of `spark.go`. The call of `log.Print` on an
error of `Match` changes neither the control flow nor the result and is left
out. -/
def isDenied (path denyList : GoString) : Bool :=
  if denyList.length = 0 then false
  else deniedLoop denyList (Split path Separator)

/-! ## spark.go: flags -/

/-- The command-line flags of `spark.go` (the package-level `flag` variables). -/
structure Flags where
  address : GoString
  port : GoString
  origin : GoString
  sslPort : GoString
  path : GoString
  deny : GoString
  status : Int
  cert : GoString
  key : GoString

/-- The default values of the flags. -/
def defaultFlags : Flags :=
  Flags.mk (str "0.0.0.0") (str "8080") (str "*") (str "10433") (str "/") (str "") 200
    (str "cert.pem") (str "key.pem")

/-! ## spark.go: protectdFileSystem -/

/-- The interface `http.FileSystem`: `Open` acts on the state `σ` of the
underlying file system and returns `(file, err)`. -/
structure FileSystem (σ File : Type) where
  Open : GoString → σ → (Option File × Option Error) × σ

/-- The type `protectdFileSystem` of `spark.go`. -/
structure protectdFileSystem (σ File : Type) where
  fs : FileSystem σ File

/-- The method `protectdFileSystem.Open` of `spark.go`; `flags.deny` is `*deny`. -/
def protectdFileSystem.Open {σ File : Type} (pfs : protectdFileSystem σ File) (flags : Flags)
    (path : GoString) (w : σ) : (Option File × Option Error) × σ :=
  if isDenied path flags.deny then ((none, some Error.ErrPermission), w)
  else pfs.fs.Open path w

/-- A spy file system: answers with `answer` and records every path it is
asked to open. -/
def spyFS {File : Type} (answer : GoString → Option File × Option Error) :
    FileSystem (List GoString) File :=
  FileSystem.mk (fun path calls => (answer path, calls ++ [path]))

/-! ## spark.go: bytesHandler -/

/-- The calls a handler makes on its `http.ResponseWriter`. -/
inductive ResponseCall where
  | HeaderSet (key value : GoString)
  | WriteHeader (statusCode : Int)
  | Write (b : List Nat)
  deriving DecidableEq, Repr

/-- How a call on a response writer ends: it returns, or it panics; either way
`s` is the state the writer is left in. -/
inductive CallResult (σ : Type) where
  | ok (s : σ)
  | panic (s : σ)
  deriving DecidableEq, Repr

/-- The interface `http.ResponseWriter`, acting on a state `σ`. Each method may
panic. -/
structure ResponseWriter (σ : Type) where
  HeaderSet : GoString → GoString → σ → CallResult σ
  WriteHeader : Int → σ → CallResult σ
  Write : List Nat → σ → CallResult σ

/-- Go `checkWriteHeaderCode` of `net/http`, called first by `WriteHeader` of
the server's response writer and of `httptest.ResponseRecorder`: it panics for
a code below 100 or above 999. Returns whether the code passes. -/
def checkWriteHeaderCode (code : Int) : Bool :=
  !(decide (code < 100) || decide (code > 999))

/-- A response writer that records the calls made on it, in order. As with the
writers of `net/http`, `WriteHeader` panics, before anything is written, for a
code that `checkWriteHeaderCode` refuses. -/
def recorder : ResponseWriter (List ResponseCall) :=
  ResponseWriter.mk
    (fun key value calls => CallResult.ok (calls ++ [ResponseCall.HeaderSet key value]))
    (fun statusCode calls =>
      if checkWriteHeaderCode statusCode then
        CallResult.ok (calls ++ [ResponseCall.WriteHeader statusCode])
      else CallResult.panic calls)
    (fun b calls => CallResult.ok (calls ++ [ResponseCall.Write b]))

/-- An HTTP request, as far as a handler can tell requests apart. -/
structure Request where
  Method : GoString
  URLPath : GoString
  Header : List (GoString × GoString)
  Body : List Nat

/-- The type `bytesHandler` of `spark.go`. -/
abbrev bytesHandler := List Nat

/-- The method `bytesHandler.ServeHTTP` of `spark.go`; `flags.status` is
`*status`. A panic of a call ends the method: the calls after it are not made. -/
def bytesHandler.ServeHTTP {σ : Type} (h : bytesHandler) (flags : Flags) (w : ResponseWriter σ)
    (_req : Request) (s : σ) : CallResult σ :=
  match w.HeaderSet (str "Content-Type") (str "text/html; charset=utf-8") s with
  | CallResult.panic s => CallResult.panic s
  | CallResult.ok s =>
    match w.WriteHeader flags.status s with
    | CallResult.panic s => CallResult.panic s
    | CallResult.ok s => w.Write h s

/-! ## spark.go: main, up to the call of http.Handle -/

/-- The bit `os.ModeDir`. -/
def ModeDir : Nat := 2 ^ 31
/-- The bit `os.ModeSymlink`. -/
def ModeSymlink : Nat := 2 ^ 27
/-- The bit `os.ModeDevice`. -/
def ModeDevice : Nat := 2 ^ 26
/-- The bit `os.ModeNamedPipe`. -/
def ModeNamedPipe : Nat := 2 ^ 25
/-- The bit `os.ModeSocket`. -/
def ModeSocket : Nat := 2 ^ 24
/-- The bit `os.ModeCharDevice`. -/
def ModeCharDevice : Nat := 2 ^ 21
/-- The bit `os.ModeIrregular`. -/
def ModeIrregular : Nat := 2 ^ 19

/-- The mask `os.ModeType`. -/
def ModeType : Nat :=
  ModeDir ||| ModeSymlink ||| ModeNamedPipe ||| ModeSocket ||| ModeDevice ||| ModeCharDevice |||
    ModeIrregular

/-- Go `FileMode.IsDir`. -/
def IsDir (mode : Nat) : Bool := mode &&& ModeDir != 0

/-- Go `FileMode.IsRegular`. -/
def IsRegular (mode : Nat) : Bool := mode &&& ModeType == 0

/-- What the operating system answers to `main`: `os.Stat` gives the file mode
or an error, `ioutil.ReadFile` the contents or an error. -/
structure OS where
  Stat : GoString → Except Error Nat
  ReadFile : GoString → Except Error (List Nat)

/-- The handlers `main` builds. -/
inductive Handler where
  | FileServer (root : GoString)
  | bytes (h : bytesHandler)
  | cors (origin : GoString) (next : Handler)
  | StripPrefix (pfx : GoString) (next : Handler)
  deriving DecidableEq, Repr

/-- How the start of `main` ends: `log.Fatal`, or the call
`http.Handle(pattern, handler)`, where `handler` is `none` for the nil
interface value (on which `http.Handle` panics). -/
inductive Startup where
  | Fatal
  | Handle (pattern : GoString) (handler : Option Handler)
  deriving DecidableEq, Repr

/-- The function `main` of `spark.go` from `body := flag.Arg(0)` to
`http.Handle(*path, handler)`; `arg0` is `flag.Arg(0)`. -/
def main (flags : Flags) (arg0 : GoString) (os : OS) : Startup :=
  let body := if arg0 = [] then str "." else arg0
  match os.Stat body with
  | .ok mode =>
    if IsDir mode then
      Startup.Handle flags.path (some (Handler.StripPrefix flags.path
        (Handler.cors flags.origin (Handler.FileServer body))))
    else if IsRegular mode then
      match os.ReadFile body with
      | .error _ => Startup.Fatal
      | .ok content =>
        Startup.Handle flags.path (some (Handler.cors flags.origin (Handler.bytes content)))
    else Startup.Handle flags.path none
  | .error _ =>
    Startup.Handle flags.path (some (Handler.cors flags.origin (Handler.bytes body)))

/-! ## Notions used to state the properties -/

/-- The pattern contains one of the bytes that `filepath.Match` treats
specially: `*`, `?`, `[`, or the backslash. -/
def hasMeta (pattern : GoString) : Bool :=
  pattern.any (fun c => c = 0x2A ∨ c = 0x3F ∨ c = 0x5B ∨ c = 0x5C)

/-- A pattern is malformed when `filepath.Match` reports an error for it on
some name (the error can only be `ErrBadPattern`). -/
def malformed (pattern : GoString) : Prop :=
  ∃ name, (Match pattern name).2 ≠ none

/-- An operating system in which every path is a directory with permission
bits `0755`. -/
def directoryOS : OS :=
  OS.mk (fun _ => .ok (ModeDir ||| 493)) (fun _ => .error (Error.other (str "is a directory")))

/-! ## Basic facts about the loops of isDenied -/

theorem deniedByAny_iff (seg : GoString) (pats : List GoString) :
    deniedByAny seg pats = true ↔ ∃ pat ∈ pats, (Match (TrimSpace pat) seg).1 = true := by
  induction pats with
  | nil => simp [deniedByAny]
  | cons p ps ih =>
    simp only [deniedByAny, List.mem_cons, exists_eq_or_imp]
    by_cases h : (Match (TrimSpace p) seg).1 = true
    · simp [h]
    · simp [h, ih]

theorem deniedLoop_iff (denyList : GoString) (segs : List GoString) :
    deniedLoop denyList segs = true ↔
      ∃ seg ∈ segs, ∃ pat ∈ Split denyList 0x2C, (Match (TrimSpace pat) seg).1 = true := by
  induction segs with
  | nil => simp [deniedLoop]
  | cons s ss ih =>
    simp only [deniedLoop, List.mem_cons, exists_eq_or_imp]
    by_cases h : deniedByAny s (Split denyList 0x2C) = true
    · simp only [h, if_true, true_iff]
      exact Or.inl ((deniedByAny_iff _ _).1 h)
    · have h2 := mt (deniedByAny_iff s (Split denyList 0x2C)).2 h
      have h3 : deniedByAny s (Split denyList 0x2C) = false := by simpa using h
      rw [h3]
      simp only [Bool.false_eq_true, if_false]
      rw [ih]
      exact ⟨fun hx => Or.inr hx, fun hx => hx.resolve_left h2⟩

theorem isDenied_iff (path denyList : GoString) :
    isDenied path denyList = true ↔
      denyList ≠ [] ∧ ∃ seg ∈ Split path Separator, ∃ pat ∈ Split denyList 0x2C,
        (Match (TrimSpace pat) seg).1 = true := by
  unfold isDenied
  by_cases h : denyList = []
  · simp [h]
  · have h2 : ¬ denyList.length = 0 := by simpa using h
    simp only [h2, if_false, deniedLoop_iff, ne_eq, h, not_false_eq_true, true_and]

theorem Split_ne_nil (s : GoString) (sep : Nat) : Split s sep ≠ [] := by
  cases s with
  | nil => simp [Split]
  | cons c rest =>
    simp only [Split]
    split
    · simp
    · split <;> simp

theorem Split_append (p q : GoString) (sep : Nat) :
    Split (p ++ sep :: q) sep = Split p sep ++ Split q sep := by
  induction p with
  | nil => simp [Split]
  | cons c rest ih =>
    simp only [List.cons_append, Split]
    by_cases h : c = sep
    · simp [h, ih]
    · simp only [h, if_false, List.append_eq]
      rw [ih]
      cases hs : Split rest sep with
      | nil => exact absurd hs (Split_ne_nil rest sep)
      | cons a b => simp

/-! ## Patterns without special bytes match by equality -/

theorem scanLoop_noMeta : ∀ (p : GoString) (b : Bool), hasMeta p = false →
    scanLoop p b = p.length
  | [], _, _ => rfl
  | [c], b, h => by
    simp only [hasMeta, List.any_cons, List.any_nil, Bool.or_false, decide_eq_false_iff_not,
      not_or] at h
    simp [scanLoop, h.1]
  | c :: c2 :: rest, b, h => by
    have h2 : hasMeta (c2 :: rest) = false := by
      simp only [hasMeta, List.any_cons, Bool.or_eq_false_iff] at h ⊢
      exact h.2
    have ih := fun b => scanLoop_noMeta (c2 :: rest) b h2
    simp only [hasMeta, List.any_cons, Bool.or_eq_false_iff, decide_eq_false_iff_not,
      not_or] at h
    obtain ⟨⟨h1, _, h3, h4⟩, _⟩ := h
    simp only [scanLoop, h1, h3, h4, if_false, ih, List.length_cons]
    split <;> omega

theorem scanChunk_noMeta (p : GoString) (h : hasMeta p = false) :
    scanChunk p = (false, p, []) := by
  cases p with
  | nil => simp [scanChunk, scanLoop]
  | cons c rest =>
    have hc : c ≠ 0x2A := by
      simp only [hasMeta, List.any_cons, Bool.or_eq_false_iff, decide_eq_false_iff_not,
        not_or] at h
      exact h.1.1
    have hd : List.dropWhile (fun c => decide (c = 0x2A)) (c :: rest) = c :: rest := by
      simp [List.dropWhile_cons, hc]
    simp only [scanChunk, hd, scanLoop_noMeta _ false h]
    simp [hc]

theorem matchChunkLoop_noMeta : ∀ (fuel : Nat) (chunk s : GoString) (failed : Bool),
    hasMeta chunk = false → chunk.length < fuel →
    matchChunkLoop fuel chunk s failed =
      if failed = false ∧ chunk <+: s then (s.drop chunk.length, true, none)
      else ([], false, none)
  | 0, _, _, _, _, hf => by omega
  | fuel + 1, [], s, failed, _, _ => by
    cases failed <;> simp [matchChunkLoop]
  | fuel + 1, c :: chunk1, s, failed, h, hf => by
    have h2 : hasMeta chunk1 = false := by
      simp only [hasMeta, List.any_cons, Bool.or_eq_false_iff] at h ⊢
      exact h.2
    simp only [hasMeta, List.any_cons, Bool.or_eq_false_iff, decide_eq_false_iff_not,
      not_or] at h
    obtain ⟨⟨_, h3, h4, h5⟩, _⟩ := h
    have hf2 : chunk1.length < fuel := by simpa using hf
    simp only [matchChunkLoop, h3, h4, h5, if_false]
    rw [matchChunkLoop_noMeta fuel chunk1 _ _ h2 hf2]
    cases s with
    | nil => simp
    | cons a t =>
      cases failed with
      | true => simp
      | false =>
        by_cases hac : a = c
        · subst hac
          simp [List.cons_prefix_cons]
        · have hca : ¬ c = a := fun e => hac e.symm
          simp [List.cons_prefix_cons, hac, hca]

theorem MatchLoop_nil (fuel : Nat) (name : GoString) :
    MatchLoop fuel [] name = (name.length == 0, none) := by
  cases fuel <;> simp [MatchLoop]

theorem Match_noMeta (p name : GoString) (h : hasMeta p = false) :
    (Match p name).1 = true ↔ name = p := by
  cases p with
  | nil => simp [Match, MatchLoop_nil]
  | cons c rest =>
    have hm : matchChunk (c :: rest) name =
        if (c :: rest) <+: name then (name.drop (c :: rest).length, true, none)
        else ([], false, none) := by
      unfold matchChunk
      rw [matchChunkLoop_noMeta _ _ _ _ h (Nat.lt_succ_self _)]
      simp
    simp only [Match, List.length_cons, MatchLoop, Nat.succ_pos, if_true,
      scanChunk_noMeta _ h]
    rw [hm]
    by_cases hp : (c :: rest) <+: name
    · simp only [hp, if_true, Bool.false_eq_true, false_and, if_false, List.length_nil,
        Nat.lt_irrefl, or_false, true_and]
      by_cases ht : (List.drop (rest.length + 1) name).length = 0
      · simp only [List.length_cons] at ht ⊢
        simp only [ht, if_true, MatchLoop_nil]
        simp only [List.length_drop] at ht
        have hle := hp.length_le
        simp only [List.length_cons] at hle
        have : name = c :: rest := (hp.eq_of_length (by simp; omega)).symm
        simp [this]
      · simp only [List.length_cons] at ht ⊢
        simp only [ht, if_false]
        constructor
        · simp
        · intro e
          subst e
          simp at ht
    · simp only [hp, if_false, Bool.false_eq_true, false_and]
      constructor
      · simp
      · intro e
        subst e
        exact absurd (List.prefix_refl _) hp

/-! ## The error of Match depends on the pattern only through its chunks -/

theorem rangeLoop_snd (r r' : Nat) : ∀ (fuel : Nat) (chunk : GoString) (m m' : Bool) (n : Nat),
    Except.map Prod.snd (rangeLoop r fuel chunk m n) =
      Except.map Prod.snd (rangeLoop r' fuel chunk m' n)
  | 0, _, _, _, _ => rfl
  | fuel + 1, chunk, m, m', n => by
    simp only [rangeLoop]
    split
    · rfl
    · rcases hg : getEsc chunk with ⟨lo, c1, e⟩
      cases e with
      | some err => rfl
      | none =>
        simp only []
        split
        · rcases hg2 : getEsc c1.tail with ⟨hi, c2, e2⟩
          cases e2 with
          | some err => rfl
          | none => exact rangeLoop_snd r r' fuel c2 _ _ _
        · exact rangeLoop_snd r r' fuel c1 _ _ _

theorem matchChunkLoop_err : ∀ (fuel : Nat) (chunk s s' : GoString) (f f' : Bool),
    (matchChunkLoop fuel chunk s f).2.2 = (matchChunkLoop fuel chunk s' f').2.2
  | 0, _, _, _, _, _ => rfl
  | fuel + 1, [], s, s', f, f' => by
    cases f <;> cases f' <;> simp [matchChunkLoop]
  | fuel + 1, c :: chunk1, s, s', f, f' => by
    simp only [matchChunkLoop]
    split
    · have hr := rangeLoop_snd
        (if (f || s.length == 0) = true then 0 else (DecodeRuneInString s).1)
        (if (f' || s'.length == 0) = true then 0 else (DecodeRuneInString s').1)
        fuel (if chunk1.head? = some 0x5E then chunk1.tail else chunk1) false false 0
      generalize rangeLoop (if (f || s.length == 0) = true then 0 else (DecodeRuneInString s).1)
        fuel (if chunk1.head? = some 0x5E then chunk1.tail else chunk1) false 0 = x at hr ⊢
      generalize rangeLoop (if (f' || s'.length == 0) = true then 0 else (DecodeRuneInString s').1)
        fuel (if chunk1.head? = some 0x5E then chunk1.tail else chunk1) false 0 = y at hr ⊢
      cases x with
      | error e1 =>
        cases y with
        | error e2 =>
          simp only [Except.map, Except.error.injEq] at hr
          simp [hr]
        | ok b => simp [Except.map] at hr
      | ok a =>
        cases y with
        | error e2 => simp [Except.map] at hr
        | ok b =>
          obtain ⟨m1, c3⟩ := a
          obtain ⟨m2, c4⟩ := b
          simp only [Except.map, Except.ok.injEq] at hr
          subst hr
          exact matchChunkLoop_err fuel _ _ _ _ _
    · split
      · exact matchChunkLoop_err fuel _ _ _ _ _
      · split
        · cases chunk1 with
          | nil => rfl
          | cons c1 chunk2 => exact matchChunkLoop_err fuel _ _ _ _ _
        · exact matchChunkLoop_err fuel _ _ _ _ _

theorem matchChunkLoop_ok : ∀ (fuel : Nat) (chunk s : GoString) (f : Bool),
    (matchChunkLoop fuel chunk s f).2.1 = true → (matchChunkLoop fuel chunk s f).2.2 = none
  | 0, _, _, _ => fun _ => rfl
  | fuel + 1, [], s, f => by
    cases f <;> simp [matchChunkLoop]
  | fuel + 1, c :: chunk1, s, f => by
    simp only [matchChunkLoop]
    split
    · split
      · simp
      · exact matchChunkLoop_ok fuel _ _ _
    · split
      · exact matchChunkLoop_ok fuel _ _ _
      · split
        · cases chunk1 with
          | nil => simp
          | cons c1 chunk2 => exact matchChunkLoop_ok fuel _ _ _
        · exact matchChunkLoop_ok fuel _ _ _

theorem matchChunk_err (chunk s s' : GoString) :
    (matchChunk chunk s).2.2 = (matchChunk chunk s').2.2 :=
  matchChunkLoop_err _ _ _ _ _ _

theorem matchChunk_ok (chunk s : GoString) (h : (matchChunk chunk s).2.1 = true) :
    (matchChunk chunk s).2.2 = none :=
  matchChunkLoop_ok _ _ _ _ h

theorem starLoop_not_failed (chunk : GoString) (last : Bool)
    (h : ∀ s, (matchChunk chunk s).2.2 = none) :
    ∀ (name : GoString) (err : Error), starLoop chunk last name ≠ StarResult.failed err
  | [], err => by simp [starLoop]
  | c :: rest, err => by
    simp only [starLoop]
    split
    · simp
    · have hr := h rest
      rcases hm : matchChunk chunk rest with ⟨t, ok, e⟩
      rw [hm] at hr
      simp only at hr
      subst hr
      cases ok with
      | true =>
        simp only []
        split
        · exact starLoop_not_failed chunk last h rest err
        · simp
      | false => exact starLoop_not_failed chunk last h rest err

theorem MatchLoop_true_no_err : ∀ (fuel : Nat) (pattern n1 n2 : GoString),
    (MatchLoop fuel pattern n1).1 = true → (MatchLoop fuel pattern n2).2 = none
  | 0, _, _, _ => fun _ => rfl
  | fuel + 1, pattern, n1, n2 => by
    simp only [MatchLoop]
    split
    · rcases hsc : scanChunk pattern with ⟨star, chunk, rest⟩
      simp only []
      split
      · intro _
        rfl
      · intro h1
        have key : (∀ s, (matchChunk chunk s).2.2 = none) ∧
            ∃ t, (MatchLoop fuel rest t).1 = true := by
          rcases hm1 : matchChunk chunk n1 with ⟨t1, ok1, e1⟩
          rw [hm1] at h1
          simp only [] at h1
          split at h1
          · rename_i hok
            refine ⟨fun s => ?_, t1, h1⟩
            have := matchChunk_ok chunk n1 (by rw [hm1]; exact hok.1)
            rw [matchChunk_err chunk s n1]
            exact this
          · split at h1
            · simp at h1
            · rename_i hne
              have he1 : e1 = none := by simpa using hne
              have hall : ∀ s, (matchChunk chunk s).2.2 = none := by
                intro s
                rw [matchChunk_err chunk s n1, hm1]
                exact he1
              split at h1
              · split at h1
                · rename_i t hst
                  exact ⟨hall, t, h1⟩
                · simp at h1
                · simp at h1
              · simp at h1
        obtain ⟨hall, t, ht⟩ := key
        rcases hm2 : matchChunk chunk n2 with ⟨t2, ok2, e2⟩
        have he2 : e2 = none := by
          have := hall n2
          rw [hm2] at this
          exact this
        subst he2
        simp only []
        split
        · exact MatchLoop_true_no_err fuel rest t t2 ht
        · simp only [ne_eq, not_true_eq_false, if_false]
          split
          · split
            · rename_i t3 hst
              exact MatchLoop_true_no_err fuel rest t t3 ht
            · rename_i err hst
              exact absurd hst (starLoop_not_failed chunk _ hall n2 err)
            · rfl
          · rfl
    · intro _
      rfl

theorem Match_true_no_err (pattern n1 n2 : GoString) (h : (Match pattern n1).1 = true) :
    (Match pattern n2).2 = none :=
  MatchLoop_true_no_err _ _ _ _ h

theorem malformed_never_matches (pattern name : GoString) (h : malformed pattern) :
    (Match pattern name).1 = false := by
  obtain ⟨n2, hn2⟩ := h
  cases hm : (Match pattern name).1 with
  | false => rfl
  | true => exact absurd (Match_true_no_err pattern name n2 hm) hn2

/-! ## The loop counters never run out -/

theorem DecodeRuneInString_width (c : Nat) (rest : GoString) :
    1 ≤ (DecodeRuneInString (c :: rest)).2 := by
  unfold DecodeRuneInString
  simp only []
  repeat' split
  all_goals simp

theorem getEsc_shrink (chunk nchunk : GoString) (r : Nat)
    (h : getEsc chunk = (r, nchunk, none)) : nchunk.length < chunk.length := by
  cases chunk with
  | nil => simp [getEsc] at h
  | cons c rest =>
    simp only [getEsc] at h
    split at h
    · simp at h
    · split at h
      · simp at h
      · rename_i h1 h2
        simp only [Prod.mk.injEq] at h
        obtain ⟨_, hn, he⟩ := h
        subst hn
        by_cases hc : c = 0x5C
        · have hr : rest ≠ [] := fun e => h2 ⟨hc, e⟩
          obtain ⟨c2, rest2, rfl⟩ := List.exists_cons_of_ne_nil hr
          have hw := DecodeRuneInString_width c2 rest2
          simp only [hc, if_true, List.length_drop, List.length_cons] at hw ⊢
          omega
        · have hw := DecodeRuneInString_width c rest
          simp only [hc, if_false, List.length_drop, List.length_cons] at hw ⊢
          omega

/-- After `getEsc` without error the rest of the chunk is not empty, so the
test `chunk[0] == '-'` of `matchChunk` reads inside the string. -/
theorem getEsc_nonempty (chunk nchunk : GoString) (r : Nat)
    (h : getEsc chunk = (r, nchunk, none)) : nchunk ≠ [] := by
  cases chunk with
  | nil => simp [getEsc] at h
  | cons c rest =>
    simp only [getEsc] at h
    split at h
    · simp at h
    · split at h
      · simp at h
      · simp only [Prod.mk.injEq] at h
        obtain ⟨_, hn, he⟩ := h
        subst hn
        intro e
        simp [e] at he

theorem rangeLoop_fuel (r : Nat) : ∀ (fuel fuel' : Nat) (chunk : GoString) (m : Bool) (n : Nat),
    chunk.length < fuel → chunk.length < fuel' →
    rangeLoop r fuel chunk m n = rangeLoop r fuel' chunk m n
  | 0, _, _, _, _, h, _ => by omega
  | _ + 1, 0, _, _, _, _, h => by omega
  | fuel + 1, fuel' + 1, chunk, m, n, h, h' => by
    simp only [rangeLoop]
    split
    · rfl
    · rcases hg : getEsc chunk with ⟨lo, c1, e⟩
      cases e with
      | some err => rfl
      | none =>
        have hs := getEsc_shrink _ _ _ hg
        simp only []
        split
        · rcases hg2 : getEsc c1.tail with ⟨hi, c2, e2⟩
          cases e2 with
          | some err => rfl
          | none =>
            have hs2 := getEsc_shrink _ _ _ hg2
            have ht : c1.tail.length ≤ c1.length := by simp
            exact rangeLoop_fuel r fuel fuel' c2 _ _ (by omega) (by omega)
        · exact rangeLoop_fuel r fuel fuel' c1 _ _ (by omega) (by omega)

theorem rangeLoop_shrink (r : Nat) : ∀ (fuel : Nat) (chunk chunk' : GoString) (m m' : Bool)
    (n : Nat), rangeLoop r fuel chunk m n = .ok (m', chunk') → chunk'.length < chunk.length
  | 0, _, _, _, _, _, h => by simp [rangeLoop] at h
  | fuel + 1, chunk, chunk', m, m', n, h => by
    simp only [rangeLoop] at h
    split at h
    · rename_i hh
      simp only [Except.ok.injEq, Prod.mk.injEq] at h
      obtain ⟨_, rfl⟩ := h
      cases chunk with
      | nil => simp at hh
      | cons c rest => simp
    · rcases hg : getEsc chunk with ⟨lo, c1, e⟩
      rw [hg] at h
      cases e with
      | some err => simp at h
      | none =>
        have hs := getEsc_shrink _ _ _ hg
        simp only [] at h
        split at h
        · rcases hg2 : getEsc c1.tail with ⟨hi, c2, e2⟩
          rw [hg2] at h
          cases e2 with
          | some err => simp at h
          | none =>
            have hs2 := getEsc_shrink _ _ _ hg2
            have ht : c1.tail.length ≤ c1.length := by simp
            have := rangeLoop_shrink r fuel c2 chunk' _ _ _ h
            omega
        · have := rangeLoop_shrink r fuel c1 chunk' _ _ _ h
          omega

theorem matchChunkLoop_fuel : ∀ (fuel fuel' : Nat) (chunk s : GoString) (f : Bool),
    chunk.length < fuel → chunk.length < fuel' →
    matchChunkLoop fuel chunk s f = matchChunkLoop fuel' chunk s f
  | 0, _, _, _, _, h, _ => by omega
  | _ + 1, 0, _, _, _, _, h => by omega
  | fuel + 1, fuel' + 1, [], s, f, _, _ => by simp [matchChunkLoop]
  | fuel + 1, fuel' + 1, c :: chunk1, s, f, h, h' => by
    simp only [List.length_cons] at h h'
    simp only [matchChunkLoop]
    split
    · have ht : chunk1.tail.length ≤ chunk1.length := by simp
      have hc2 : (if chunk1.head? = some 0x5E then chunk1.tail else chunk1).length ≤
          chunk1.length := by
        split
        · exact ht
        · exact le_refl _
      rw [rangeLoop_fuel _ fuel fuel' _ _ _ (by omega) (by omega)]
      rcases hr : rangeLoop (if (f || s.length == 0) = true then 0 else (DecodeRuneInString s).1)
        fuel' (if chunk1.head? = some 0x5E then chunk1.tail else chunk1) false 0 with e | ⟨m, c3⟩
      · rfl
      · have hs := rangeLoop_shrink _ _ _ _ _ _ _ hr
        exact matchChunkLoop_fuel fuel fuel' c3 _ _ (by omega) (by omega)
    · split
      · exact matchChunkLoop_fuel fuel fuel' chunk1 _ _ (by omega) (by omega)
      · split
        · cases chunk1 with
          | nil => rfl
          | cons c1 chunk2 =>
            simp only [List.length_cons] at h h'
            exact matchChunkLoop_fuel fuel fuel' chunk2 _ _ (by omega) (by omega)
        · exact matchChunkLoop_fuel fuel fuel' chunk1 _ _ (by omega) (by omega)

theorem scanLoop_pos : ∀ (p : GoString) (c : Nat) (b : Bool), c ≠ 0x2A →
    1 ≤ scanLoop (c :: p) b
  | [], c, b, h => by simp [scanLoop, h]
  | c2 :: rest, c, b, h => by
    simp only [scanLoop, h, if_false]
    repeat' split
    all_goals omega

theorem scanChunk_shrink (p : GoString) (h : p ≠ []) :
    (scanChunk p).2.2.length < p.length := by
  obtain ⟨c, rest, rfl⟩ := List.exists_cons_of_ne_nil h
  simp only [scanChunk, List.length_drop]
  by_cases hc : c = 0x2A
  · have hle := (List.dropWhile_suffix (l := rest) (fun c => decide (c = 0x2A))).length_le
    simp only [List.dropWhile_cons, hc, decide_True, if_true, List.length_cons]
    omega
  · have hp := scanLoop_pos rest c false hc
    simp only [List.dropWhile_cons, hc, decide_False, Bool.false_eq_true, if_false,
      List.length_cons]
    omega

theorem MatchLoop_fuel : ∀ (fuel fuel' : Nat) (pattern name : GoString),
    pattern.length ≤ fuel → pattern.length ≤ fuel' →
    MatchLoop fuel pattern name = MatchLoop fuel' pattern name
  | 0, fuel', pattern, name, h, _ => by
    have hp : pattern = [] := List.length_eq_zero.1 (by omega)
    subst hp
    simp [MatchLoop_nil]
  | fuel + 1, 0, pattern, name, _, h => by
    have hp : pattern = [] := List.length_eq_zero.1 (by omega)
    subst hp
    simp [MatchLoop_nil]
  | fuel + 1, fuel' + 1, pattern, name, h, h' => by
    simp only [MatchLoop]
    split
    · rename_i hpos
      have hne : pattern ≠ [] := by
        intro e
        simp [e] at hpos
      have hs := scanChunk_shrink pattern hne
      rcases hsc : scanChunk pattern with ⟨star, chunk, rest⟩
      rw [hsc] at hs
      simp only [] at hs ⊢
      have ih := fun t => MatchLoop_fuel fuel fuel' rest t (by omega) (by omega)
      simp only [ih]
    · rfl

/-- The result of `Match` does not depend on the loop counter, once it is at
least the length of the pattern. -/
theorem MatchLoop_eq_Match (fuel : Nat) (pattern name : GoString)
    (h : pattern.length ≤ fuel) : MatchLoop fuel pattern name = Match pattern name :=
  MatchLoop_fuel _ _ _ _ h (le_refl _)

/-- The result of `matchChunk` does not depend on the loop counter, once it
exceeds the length of the chunk. -/
theorem matchChunkLoop_eq_matchChunk (fuel : Nat) (chunk s : GoString)
    (h : chunk.length < fuel) : matchChunkLoop fuel chunk s false = matchChunk chunk s :=
  matchChunkLoop_fuel _ _ _ _ _ h (Nat.lt_succ_self _)

/-! ## The deny list decides by segments and patterns -/

/-- C1: for a non-empty deny list, `isDenied` is true exactly when some segment
of the path (split on the separator) is matched by some pattern of the deny
list (split on commas, each piece trimmed by `TrimSpace`). -/
theorem isDenied_iff_segment_matches_pattern (P D : GoString) (hD : D ≠ []) :
    isDenied P D = true ↔
      ∃ seg ∈ Split P Separator, ∃ pat ∈ Split D 0x2C,
        (Match (TrimSpace pat) seg).1 = true := by
  rw [isDenied_iff]
  exact ⟨fun h => h.2, fun h => ⟨hD, h⟩⟩

/-- Witness of C1 at the path `/a/b.go` and the deny list `x , *.go`. -/
theorem isDenied_iff_segment_matches_pattern_witness :
    str "x , *.go" ≠ [] ∧
      (isDenied (str "/a/b.go") (str "x , *.go") = true ↔
        ∃ seg ∈ Split (str "/a/b.go") Separator, ∃ pat ∈ Split (str "x , *.go") 0x2C,
          (Match (TrimSpace pat) seg).1 = true) :=
  ⟨by decide, isDenied_iff_segment_matches_pattern _ _ (by decide)⟩

/-- C3: with the empty deny list nothing is denied. -/
theorem isDenied_empty_denyList (P : GoString) : isDenied P (str "") = false := by
  simp [isDenied, str]

/-- C8, as stated, fails for the empty deny list: its only trimmed pattern is
the empty string, which has no special byte and equals the empty segments of
the path `/`, yet `isDenied` is false. -/
theorem isDenied_literal_fails_empty_denyList :
    (∀ pat ∈ Split (str "") 0x2C, hasMeta (TrimSpace pat) = false) ∧
    ¬ (isDenied (str "/") (str "") = true ↔
        ∃ seg ∈ Split (str "/") Separator, ∃ pat ∈ Split (str "") 0x2C,
          seg = TrimSpace pat) := by
  decide

/-- C8, amended: for a non-empty deny list whose trimmed patterns contain none
of `*`, `?`, `[` and the backslash, `isDenied` is true exactly when some
segment of the path equals some trimmed pattern, byte for byte; `mysecret` and
`Secret` are not denied by `secret`. -/
theorem isDenied_literal_iff_segment_eq (P D : GoString) (hD : D ≠ [])
    (hmeta : ∀ pat ∈ Split D 0x2C, hasMeta (TrimSpace pat) = false) :
    (isDenied P D = true ↔
      ∃ seg ∈ Split P Separator, ∃ pat ∈ Split D 0x2C, seg = TrimSpace pat) ∧
    isDenied (str "mysecret") (str "secret") = false ∧
    isDenied (str "Secret") (str "secret") = false ∧
    isDenied (str "/site/mysecret/a.txt") (str "secret") = false ∧
    isDenied (str "/site/Secret/a.txt") (str "secret") = false := by
  refine ⟨?_, by decide, by decide, by decide, by decide⟩
  rw [isDenied_iff]
  constructor
  · rintro ⟨_, seg, hseg, pat, hpat, hm⟩
    exact ⟨seg, hseg, pat, hpat, (Match_noMeta _ _ (hmeta pat hpat)).1 hm⟩
  · rintro ⟨seg, hseg, pat, hpat, he⟩
    exact ⟨hD, seg, hseg, pat, hpat, (Match_noMeta _ _ (hmeta pat hpat)).2 he⟩

/-- Witness of amended C8 at the path `/a/secret` and the deny list `x, secret`. -/
theorem isDenied_literal_iff_segment_eq_witness :
    str "x, secret" ≠ [] ∧
    (∀ pat ∈ Split (str "x, secret") 0x2C, hasMeta (TrimSpace pat) = false) ∧
    (isDenied (str "/a/secret") (str "x, secret") = true ↔
      ∃ seg ∈ Split (str "/a/secret") Separator, ∃ pat ∈ Split (str "x, secret") 0x2C,
        seg = TrimSpace pat) :=
  ⟨by decide, by decide,
    (isDenied_literal_iff_segment_eq (str "/a/secret") (str "x, secret") (by decide)
      (by decide)).1⟩

/-- C9, as stated, fails: the empty string is matched by the pattern `*`, and
the root path `/`, whose segments are empty, is denied by the deny list `*`. -/
theorem isDenied_root_star :
    Match (str "*") (str "") = (true, none) ∧
    Split (str "/") Separator = [str "", str ""] ∧
    isDenied (str "/") (str "*") = true := by
  decide

/-- C9, amended: an empty segment is matched like any other segment. The
pattern `*` matches the empty string, so `/` is denied by `*`; and under any
non-empty deny list with a trimmed pattern that matches the empty string, every
path with an empty segment is denied. -/
theorem isDenied_empty_segment (P D : GoString) (hD : D ≠ [])
    (hP : [] ∈ Split P Separator)
    (hpat : ∃ pat ∈ Split D 0x2C, (Match (TrimSpace pat) []).1 = true) :
    isDenied P D = true ∧ (Match (str "*") []).1 = true ∧
      isDenied (str "/") (str "*") = true := by
  refine ⟨?_, by decide, by decide⟩
  rw [isDenied_iff]
  obtain ⟨pat, hp, hm⟩ := hpat
  exact ⟨hD, [], hP, pat, hp, hm⟩

/-- Witness of amended C9 at the path `/index.html` and the deny list `x,*`. -/
theorem isDenied_empty_segment_witness :
    str "x,*" ≠ [] ∧ [] ∈ Split (str "/index.html") Separator ∧
    (∃ pat ∈ Split (str "x,*") 0x2C, (Match (TrimSpace pat) []).1 = true) ∧
    isDenied (str "/index.html") (str "x,*") = true :=
  ⟨by decide, by decide, by decide,
    (isDenied_empty_segment (str "/index.html") (str "x,*") (by decide) (by decide)
      (by decide)).1⟩

/-! ## Malformed patterns -/

/-- C4: a malformed pattern is skipped. `isDenied` is a total function into
the booleans whose loops always finish (the results of `Match` and
`matchChunk` do not depend on the loop counter once it covers the pattern); a
malformed pattern matches no name at all; and `isDenied` is true exactly when
the deny list is non-empty and some segment is matched by some well-formed
trimmed pattern, wherever the malformed ones stand in the list: with the deny
list `[,secret`, whose first pattern is malformed, `/site/secret` is denied and
`/site/index.html` is not. -/
theorem isDenied_skips_malformed (P D : GoString) :
    (isDenied P D = true ∨ isDenied P D = false) ∧
    (∀ pat seg fuel, pat.length ≤ fuel → MatchLoop fuel pat seg = Match pat seg) ∧
    (∀ chunk s fuel, chunk.length < fuel →
        matchChunkLoop fuel chunk s false = matchChunk chunk s) ∧
    (∀ pat seg, malformed pat → (Match pat seg).1 = false) ∧
    (isDenied P D = true ↔
      D ≠ [] ∧ ∃ seg ∈ Split P Separator, ∃ pat ∈ Split D 0x2C,
        ¬ malformed (TrimSpace pat) ∧ (Match (TrimSpace pat) seg).1 = true) ∧
    (malformed (str "[") ∧ isDenied (str "/site/secret") (str "[,secret") = true ∧
      isDenied (str "/site/index.html") (str "[,secret") = false) := by
  refine ⟨?_, ?_, ?_, ?_, ?_, ?_⟩
  · cases isDenied P D <;> simp
  · intro pat seg fuel h
    exact MatchLoop_eq_Match fuel pat seg h
  · intro chunk s fuel h
    exact matchChunkLoop_eq_matchChunk fuel chunk s h
  · intro pat seg h
    exact malformed_never_matches pat seg h
  · rw [isDenied_iff]
    constructor
    · rintro ⟨hD, seg, hseg, pat, hpat, hm⟩
      refine ⟨hD, seg, hseg, pat, hpat, ?_, hm⟩
      intro hbad
      have := malformed_never_matches (TrimSpace pat) seg hbad
      rw [hm] at this
      exact Bool.noConfusion this
    · rintro ⟨hD, seg, hseg, pat, hpat, _, hm⟩
      exact ⟨hD, seg, hseg, pat, hpat, hm⟩
  · exact ⟨⟨str "a", by decide⟩, by decide, by decide⟩

/-- Witness of C4: the pattern `[` is malformed and does not match the name `[`. -/
theorem isDenied_skips_malformed_witness :
    malformed (str "[") ∧ (Match (str "[") (str "[")).1 = false :=
  ⟨⟨str "a", by decide⟩,
    (isDenied_skips_malformed (str "/") (str "[")).2.2.2.1 (str "[") (str "[")
      ⟨str "a", by decide⟩⟩

/-! ## The guarded file system -/

/-- C2: when `isDenied` holds for the path, `Open` returns no file and
`ErrPermission` and leaves the underlying file system untouched: its state is
unchanged, and a spy file system has recorded no call. With the deny list
`secret`, opening `/secret/config.txt` is refused and opening `/index.html` is
handed to the underlying file system. -/
theorem Open_denied_permission (flags : Flags) (P : GoString)
    (h : isDenied P flags.deny = true) :
    (∀ (σ File : Type) (pfs : protectdFileSystem σ File) (w : σ),
        pfs.Open flags P w = ((none, some Error.ErrPermission), w)) ∧
    (∀ (File : Type) (answer : GoString → Option File × Option Error),
        (protectdFileSystem.mk (spyFS answer)).Open flags P [] =
          ((none, some Error.ErrPermission), [])) ∧
    (∀ (σ File : Type) (pfs : protectdFileSystem σ File) (fl : Flags) (w : σ),
        fl.deny = str "secret" →
          pfs.Open fl (str "/secret/config.txt") w = ((none, some Error.ErrPermission), w) ∧
          pfs.Open fl (str "/index.html") w = pfs.fs.Open (str "/index.html") w) := by
  refine ⟨?_, ?_, ?_⟩
  · intro σ File pfs w
    simp [protectdFileSystem.Open, h]
  · intro File answer
    simp [protectdFileSystem.Open, h]
  · intro σ File pfs fl w hd
    have h1 : isDenied (str "/secret/config.txt") (str "secret") = true := by decide
    have h2 : isDenied (str "/index.html") (str "secret") = false := by decide
    simp [protectdFileSystem.Open, hd, h1, h2]

/-- Witness of C2 with the deny list `secret` and the path `/secret/config.txt`. -/
theorem Open_denied_permission_witness :
    isDenied (str "/secret/config.txt")
        (Flags.mk [] [] [] [] [] (str "secret") 200 [] []).deny = true ∧
      (protectdFileSystem.mk (spyFS (fun _ => ((some 0 : Option Nat), none)))).Open
          (Flags.mk [] [] [] [] [] (str "secret") 200 [] []) (str "/secret/config.txt") [] =
        ((none, some Error.ErrPermission), []) :=
  ⟨by decide,
    (Open_denied_permission (Flags.mk [] [] [] [] [] (str "secret") 200 [] [])
      (str "/secret/config.txt") (by decide)).2.1 Nat _⟩

/-- C10: denial is inherited. If `P` is denied under `D`, then so is `P`
followed or preceded by further segments, and `P` stays denied under a deny
list extended on either side; the guarded `Open` refuses every path below `P`. -/
theorem isDenied_inherited (P Q D E : GoString) (h : isDenied P D = true) :
    isDenied (P ++ Separator :: Q) D = true ∧
    isDenied (Q ++ Separator :: P) D = true ∧
    isDenied P (D ++ 0x2C :: E) = true ∧
    isDenied P (E ++ 0x2C :: D) = true ∧
    (∀ (σ File : Type) (pfs : protectdFileSystem σ File) (flags : Flags) (w : σ),
        flags.deny = D →
          pfs.Open flags (P ++ Separator :: Q) w = ((none, some Error.ErrPermission), w)) := by
  obtain ⟨hD, seg, hseg, pat, hpat, hm⟩ := (isDenied_iff P D).1 h
  have h1 : isDenied (P ++ Separator :: Q) D = true := by
    rw [isDenied_iff, Split_append]
    exact ⟨hD, seg, List.mem_append_left _ hseg, pat, hpat, hm⟩
  refine ⟨h1, ?_, ?_, ?_, ?_⟩
  · rw [isDenied_iff, Split_append]
    exact ⟨hD, seg, List.mem_append_right _ hseg, pat, hpat, hm⟩
  · rw [isDenied_iff, Split_append]
    exact ⟨by simp, seg, hseg, pat, List.mem_append_left _ hpat, hm⟩
  · rw [isDenied_iff, Split_append]
    exact ⟨by simp, seg, hseg, pat, List.mem_append_right _ hpat, hm⟩
  · intro σ File pfs flags w hd
    simp [protectdFileSystem.Open, hd, h1]

/-- Witness of C10: `/secret` is denied under `secret`, with `Q = config.txt`
and `E = *.go`. -/
theorem isDenied_inherited_witness :
    isDenied (str "/secret") (str "secret") = true ∧
      isDenied (str "/secret" ++ Separator :: str "config.txt") (str "secret") = true :=
  ⟨by decide,
    (isDenied_inherited (str "/secret") (str "config.txt") (str "secret") (str "*.go")
      (by decide)).1⟩

/-! ## The body responder -/

/-- C5, as stated, fails: with the status flag at 0 and the buffer `hi`, the
call `WriteHeader(0)` panics after the header was set, and the buffer is never
written. -/
theorem bytesHandler_ServeHTTP_status_zero :
    bytesHandler.ServeHTTP (str "hi")
        (Flags.mk (str "0.0.0.0") (str "8080") (str "*") (str "10433") (str "/") (str "") 0
          (str "cert.pem") (str "key.pem"))
        recorder (Request.mk (str "GET") (str "/") [] []) [] =
      CallResult.panic
        [ResponseCall.HeaderSet (str "Content-Type") (str "text/html; charset=utf-8")] := by
  decide

/-- C5, amended: for every buffer, request and flags whose status lies in
100..999, `ServeHTTP` makes exactly three calls on the response writer, in this
order: set the header `Content-Type` to `text/html; charset=utf-8`, write the
configured status, write the buffer. On any response writer the result is the
same for any two requests, and the calls follow each other as long as none
panics: after `Header().Set` the status is written, and the buffer is written
after it exactly when `WriteHeader` returns. For a status outside 100..999
`WriteHeader` panics and the buffer is not written. -/
theorem bytesHandler_ServeHTTP_valid_status (B : bytesHandler) (flags : Flags) (req : Request)
    (hlo : 100 ≤ flags.status) (hhi : flags.status ≤ 999) :
    bytesHandler.ServeHTTP B flags recorder req [] =
        CallResult.ok
          [ResponseCall.HeaderSet (str "Content-Type") (str "text/html; charset=utf-8"),
            ResponseCall.WriteHeader flags.status, ResponseCall.Write B] ∧
    (∀ (σ : Type) (w : ResponseWriter σ) (s : σ) (req2 : Request),
        bytesHandler.ServeHTTP B flags w req s = bytesHandler.ServeHTTP B flags w req2 s) ∧
    (∀ (σ : Type) (w : ResponseWriter σ) (s s1 : σ),
        w.HeaderSet (str "Content-Type") (str "text/html; charset=utf-8") s = CallResult.ok s1 →
        (∀ s2, w.WriteHeader flags.status s1 = CallResult.ok s2 →
          bytesHandler.ServeHTTP B flags w req s = w.Write B s2) ∧
        (∀ s2, w.WriteHeader flags.status s1 = CallResult.panic s2 →
          bytesHandler.ServeHTTP B flags w req s = CallResult.panic s2)) ∧
    (∀ fl : Flags, fl.status < 100 ∨ 999 < fl.status →
        bytesHandler.ServeHTTP B fl recorder req [] =
          CallResult.panic
            [ResponseCall.HeaderSet (str "Content-Type") (str "text/html; charset=utf-8")]) := by
  refine ⟨?_, ?_, ?_, ?_⟩
  · have hc : checkWriteHeaderCode flags.status = true := by
      simp only [checkWriteHeaderCode, gt_iff_lt, Bool.not_eq_true', Bool.or_eq_false_iff,
        decide_eq_false_iff_not]
      omega
    simp [bytesHandler.ServeHTTP, recorder, hc]
  · intro σ w s req2
    rfl
  · intro σ w s s1 h1
    refine ⟨?_, ?_⟩
    · intro s2 h2
      simp [bytesHandler.ServeHTTP, h1, h2]
    · intro s2 h2
      simp [bytesHandler.ServeHTTP, h1, h2]
  · intro fl hf
    have hc : checkWriteHeaderCode fl.status = false := by
      simp only [checkWriteHeaderCode, gt_iff_lt, Bool.not_eq_false', Bool.or_eq_true,
        decide_eq_true_eq]
      exact hf
    simp [bytesHandler.ServeHTTP, recorder, hc]

/-- Witness of amended C5 with the buffer `hi`, the default flags (status 200)
and a GET request. -/
theorem bytesHandler_ServeHTTP_valid_status_witness :
    (100 : Int) ≤ defaultFlags.status ∧ defaultFlags.status ≤ 999 ∧
      bytesHandler.ServeHTTP (str "hi") defaultFlags recorder
          (Request.mk (str "GET") (str "/") [] []) [] =
        CallResult.ok
          [ResponseCall.HeaderSet (str "Content-Type") (str "text/html; charset=utf-8"),
            ResponseCall.WriteHeader defaultFlags.status, ResponseCall.Write (str "hi")] :=
  ⟨by decide, by decide,
    (bytesHandler_ServeHTTP_valid_status (str "hi") defaultFlags
      (Request.mk (str "GET") (str "/") [] []) (by decide) (by decide)).1⟩

/-! ## The startup dispatch -/

/-- C6: a target that exists and is neither a directory nor a regular file
(here `/dev/null`, a character device) leaves the handler nil: `main` calls
`http.Handle` with no handler, whatever the flags and the contents of files. -/
theorem main_other_type_nil_handler (flags : Flags)
    (readFile : GoString → Except Error (List Nat)) :
    main flags (str "/dev/null")
        (OS.mk (fun _ => .ok (ModeDevice ||| ModeCharDevice ||| 438)) readFile) =
      Startup.Handle flags.path none := by
  have h1 : IsDir (ModeDevice ||| ModeCharDevice ||| 438) = false := by decide
  have h2 : IsRegular (ModeDevice ||| ModeCharDevice ||| 438) = false := by decide
  have h3 : str "/dev/null" ≠ [] := by decide
  simp [main, h1, h2, h3]

/-- C7, as stated, fails: with the empty argument, default flags and a current
directory that is a directory, `main` installs directory serving of `.`, not a
body responder with the empty body. -/
theorem main_empty_arg_not_literal :
    main defaultFlags (str "") directoryOS =
        Startup.Handle (str "/") (some (Handler.StripPrefix (str "/")
          (Handler.cors (str "*") (Handler.FileServer (str "."))))) ∧
    main defaultFlags (str "") directoryOS ≠
        Startup.Handle (str "/") (some (Handler.cors (str "*") (Handler.bytes (str "")))) := by
  decide

/-- C7, amended: the empty argument is replaced by `.` before the dispatch. If
`.` is a directory, `main` installs guarded directory serving of `.`; if the
stat of `.` fails, it installs the body responder over the one-byte body `.`,
which with the default flags answers with status 200 and that body. -/
theorem main_empty_arg_is_dot (flags : Flags) (os : OS) :
    main flags (str "") os = main flags (str ".") os ∧
    (∀ mode, os.Stat (str ".") = .ok mode → IsDir mode = true →
        main flags (str "") os =
          Startup.Handle flags.path (some (Handler.StripPrefix flags.path
            (Handler.cors flags.origin (Handler.FileServer (str ".")))))) ∧
    (∀ err, os.Stat (str ".") = .error err →
        main flags (str "") os =
          Startup.Handle flags.path (some (Handler.cors flags.origin (Handler.bytes (str "."))))) ∧
    (∀ req : Request, bytesHandler.ServeHTTP (str ".") defaultFlags recorder req [] =
        CallResult.ok
          [ResponseCall.HeaderSet (str "Content-Type") (str "text/html; charset=utf-8"),
            ResponseCall.WriteHeader 200, ResponseCall.Write (str ".")]) := by
  have h0 : str "" = [] := by decide
  have h1 : str "." ≠ [] := by decide
  refine ⟨?_, ?_, ?_, ?_⟩
  · simp [main, h0, h1]
  · intro mode hs hd
    simp [main, h0, hs, hd]
  · intro err hs
    simp [main, h0, hs]
  · intro req
    simp [bytesHandler.ServeHTTP, recorder, defaultFlags, checkWriteHeaderCode]

/-- Witness of amended C7 on an operating system where `.` is a directory. -/
theorem main_empty_arg_is_dot_witness :
    directoryOS.Stat (str ".") = .ok (ModeDir ||| 493) ∧ IsDir (ModeDir ||| 493) = true ∧
      main defaultFlags (str "") directoryOS =
        Startup.Handle defaultFlags.path (some (Handler.StripPrefix defaultFlags.path
          (Handler.cors defaultFlags.origin (Handler.FileServer (str "."))))) :=
  ⟨rfl, by decide,
    (main_empty_arg_is_dot defaultFlags directoryOS).2.1 (ModeDir ||| 493) rfl (by decide)⟩

end Spark
